import Mathlib

/-!
Verification of the FlexiMart ETL pipeline (`part1-database-etl/etl_pipeline.py`).

The pipeline's transform and load core is embedded shallowly:

* pandas rows become Lean structures whose nullable columns are `Option` fields
  (pandas `NaN` is `none`);
* money and prices are modelled over `Rat` (exact decimal arithmetic);
* the MySQL store is a `Store` record of committed tables plus auto-increment
  counters; a load step's try/execute/commit/rollback block is modelled by its
  observable outcome (all rows committed, or a rollback that leaves the
  committed rows untouched), with an explicit fault parameter saying at which
  insert, if any, the driver raises;
* Python `datetime.strptime` for the five fixed formats is modelled by the
  exact token languages of CPython's `_strptime` regexes (`%Y` is exactly four
  digits, `%m`/`%d` are one or two digits in range), including calendar
  validation; `strftime("%Y-%m-%d")` is modelled as zero-padded fields as
  documented.

Definitions keep the source's snake_case names where Lean allows it.
-/

/-- The ten decimal digit characters; any other index yields `'9'`
(callers only pass values below ten). -/
def digitChar : Nat → Char
  | 0 => '0'
  | 1 => '1'
  | 2 => '2'
  | 3 => '3'
  | 4 => '4'
  | 5 => '5'
  | 6 => '6'
  | 7 => '7'
  | 8 => '8'
  | _ => '9'

/-- Numeric value of a digit character. -/
def charVal (c : Char) : Nat := c.toNat - 48

/-- Parse a run of digit characters as a decimal number (leading zeros allowed). -/
def parseNatChars (cs : List Char) : Nat :=
  cs.foldl (fun a c => 10 * a + charVal c) 0

/-- `standardize_phone` (etl_pipeline.py:74-106): strip non-digits, then
normalise to `+91-XXXXXXXXXX`; fewer than ten digits degrades to null. -/
def standardize_phone (x : Option String) : Option String :=
  match x with
  | none => none
  | some s =>
    if s = "" then none
    else
      let d := s.toList.filter Char.isDigit
      if d.length = 10 then some ("+91-" ++ String.mk d)
      else if d.length = 12 ∧ d.take 2 = ['9', '1'] then some ("+91-" ++ String.mk (d.drop 2))
      else if d.length = 11 ∧ d.take 1 = ['0'] then some ("+91-" ++ String.mk (d.drop 1))
      else if 10 ≤ d.length then some ("+91-" ++ String.mk (d.drop (d.length - 10)))
      else none

/-- The phone rules exactly as claim C8 words them, used as the specification
side of the refinement: null / empty / fewer than ten digits give null, then
the four positive rules in the claim's order. -/
def phoneClaimSpec (x : Option String) : Option String :=
  match x with
  | none => none
  | some s =>
    let d := s.toList.filter Char.isDigit
    if s = "" ∨ d.length < 10 then none
    else if d.length = 10 then some ("+91-" ++ String.mk d)
    else if d.length = 12 ∧ d.take 2 = ['9', '1'] then some ("+91-" ++ String.mk (d.drop 2))
    else if d.length = 11 ∧ d.take 1 = ['0'] then some ("+91-" ++ String.mk (d.drop 1))
    else some ("+91-" ++ String.mk (d.drop (d.length - 10)))

/-- C8: `standardize_phone` never raises (it is a total function) and computes
exactly the case analysis stated in the claim: after stripping non-digits,
ten digits get the `+91-` prefix, twelve digits starting `91` and eleven
digits starting `0` drop the prefix, any other input with at least ten digits
keeps its last ten digits, and everything else (null, empty, fewer than ten
digits) becomes null. -/
theorem c8_phone_spec : ∀ x : Option String, standardize_phone x = phoneClaimSpec x := by
  intro x
  cases x with
  | none => rfl
  | some s =>
    simp only [standardize_phone, phoneClaimSpec]
    by_cases hs : s = ""
    · simp [hs]
    · simp only [hs, if_false, false_or]
      split_ifs with h1 h2 h3 h4 h5 <;> first
        | rfl
        | omega

/-- Split a character list at every occurrence of `sep` (the separator is
dropped; an empty input yields one empty field), as `re` does when the
separator is a literal in the pattern. -/
def splitChar (sep : Char) : List Char → List (List Char)
  | [] => [[]]
  | c :: cs =>
    if c = sep then [] :: splitChar sep cs
    else
      match splitChar sep cs with
      | [] => [[c]]
      | p :: ps => (c :: p) :: ps

/-- Python `str.strip()`: drop whitespace from both ends. -/
def trimChars (cs : List Char) : List Char :=
  (((cs.dropWhile Char.isWhitespace).reverse.dropWhile Char.isWhitespace).reverse)

/-- One numeric token of a CPython `_strptime` pattern: all digits, a length
between `minLen` and `maxLen`, and a value between `lo` and `hi`
(this is exactly the language of the `%Y`, `%m` and `%d` regexes). -/
def parseTok (minLen maxLen lo hi : Nat) (cs : List Char) : Option Nat :=
  if cs.all Char.isDigit && decide (minLen ≤ cs.length) && decide (cs.length ≤ maxLen)
      && decide (lo ≤ parseNatChars cs) && decide (parseNatChars cs ≤ hi)
  then some (parseNatChars cs) else none

/-- `%Y`: exactly four digits. -/
def tokYear (cs : List Char) : Option Nat := parseTok 4 4 0 9999 cs

/-- `%m`: one or two digits, month 1..12. -/
def tokMonth (cs : List Char) : Option Nat := parseTok 1 2 1 12 cs

/-- `%d`: one or two digits, day 1..31. -/
def tokDay (cs : List Char) : Option Nat := parseTok 1 2 1 31 cs

/-- Gregorian leap-year rule used by `datetime`. -/
def isLeapYear (y : Nat) : Bool :=
  (y % 4 == 0 && y % 100 != 0) || (y % 400 == 0)

/-- Length of a month, as `datetime` validates it. -/
def daysInMonth (y m : Nat) : Nat :=
  if m = 2 then (if isLeapYear y then 29 else 28)
  else if m = 4 ∨ m = 6 ∨ m = 9 ∨ m = 11 then 30
  else 31

/-- `datetime` constructor validity: `MINYEAR ≤ y ≤ MAXYEAR` and the day fits
the month. -/
def validDate (y m d : Nat) : Bool :=
  decide (1 ≤ y) && decide (y ≤ 9999) && decide (1 ≤ m) && decide (m ≤ 12)
    && decide (1 ≤ d) && decide (d ≤ daysInMonth y m)

/-- Field order of a date format string. -/
inductive DOrder where
  | ymd
  | dmy
  | mdy
deriving DecidableEq

/-- Combine the three parsed fields, applying `datetime`'s validation. -/
def mkDate (oy om od : Option Nat) : Option (Nat × Nat × Nat) :=
  match oy, om, od with
  | some y, some m, some d => if validDate y m d then some (y, m, d) else none
  | _, _, _ => none

/-- `datetime.strptime(cs, fmt)` for one of the pipeline's five formats:
the pattern is three numeric tokens joined by a literal separator and must
consume the whole string, so it succeeds exactly when splitting at the
separator yields three fields each in its token's language. -/
def parseFormat (sep : Char) (ord : DOrder) (cs : List Char) : Option (Nat × Nat × Nat) :=
  match splitChar sep cs with
  | [a, b, c] =>
    match ord with
    | DOrder.ymd => mkDate (tokYear a) (tokMonth b) (tokDay c)
    | DOrder.dmy => mkDate (tokYear c) (tokMonth b) (tokDay a)
    | DOrder.mdy => mkDate (tokYear c) (tokMonth a) (tokDay b)
  | _ => none

/-- The pipeline's `date_formats` list (etl_pipeline.py:144-150), in order:
`%Y-%m-%d`, `%d/%m/%Y`, `%m-%d-%Y`, `%d-%m-%Y`, `%m/%d/%Y`. -/
def dateFormats : List (Char × DOrder) :=
  [('-', DOrder.ymd), ('/', DOrder.dmy), ('-', DOrder.mdy), ('-', DOrder.dmy), ('/', DOrder.mdy)]

/-- Try the formats in list order; the first match wins. -/
def tryFormats : List (Char × DOrder) → List Char → Option (Nat × Nat × Nat)
  | [], _ => none
  | f :: fs, cs =>
    match parseFormat f.1 f.2 cs with
    | some r => some r
    | none => tryFormats fs cs

/-- `%Y` output: the year zero-padded to four digits (as documented for
`datetime.strftime`; parsed years are at most 9999). -/
def pad4 (n : Nat) : List Char :=
  [digitChar (n / 1000 % 10), digitChar (n / 100 % 10), digitChar (n / 10 % 10), digitChar (n % 10)]

/-- `%m` / `%d` output: zero-padded to two digits. -/
def pad2 (n : Nat) : List Char :=
  [digitChar (n / 10 % 10), digitChar (n % 10)]

/-- `date_obj.strftime("%Y-%m-%d")`. -/
def formatYMD (y m d : Nat) : List Char :=
  pad4 y ++ '-' :: pad2 m ++ '-' :: pad2 d

/-- `standardize_date` (etl_pipeline.py:128-161): null or empty gives null;
otherwise strip, try the five formats in order and reformat the first match
as `YYYY-MM-DD`; no match gives null (with a logged warning). -/
def standardize_date (x : Option String) : Option String :=
  match x with
  | none => none
  | some s =>
    if s = "" then none
    else
      match tryFormats dateFormats (trimChars s.toList) with
      | some (y, m, d) => some (String.mk (formatYMD y m d))
      | none => none

theorem isDigit_digitChar {d : Nat} (h : d < 10) : (digitChar d).isDigit = true := by
  interval_cases d <;> decide

theorem charVal_digitChar {d : Nat} (h : d < 10) : charVal (digitChar d) = d := by
  interval_cases d <;> decide

theorem digitChar_ne_dash {d : Nat} (h : d < 10) : digitChar d ≠ '-' := by
  interval_cases d <;> decide

theorem not_ws_digitChar {d : Nat} (h : d < 10) : (digitChar d).isWhitespace = false := by
  interval_cases d <;> decide

theorem mem_pad4 {c : Char} {n : Nat} (h : c ∈ pad4 n) : ∃ k, k < 10 ∧ c = digitChar k := by
  simp only [pad4, List.mem_cons, List.mem_singleton, List.not_mem_nil, or_false] at h
  rcases h with h | h | h | h <;>
    exact ⟨_, Nat.mod_lt _ (by omega), h⟩

theorem mem_pad2 {c : Char} {n : Nat} (h : c ∈ pad2 n) : ∃ k, k < 10 ∧ c = digitChar k := by
  simp only [pad2, List.mem_cons, List.mem_singleton, List.not_mem_nil, or_false] at h
  rcases h with h | h <;>
    exact ⟨_, Nat.mod_lt _ (by omega), h⟩

theorem parse_pad4 {n : Nat} (h : n ≤ 9999) : parseNatChars (pad4 n) = n := by
  have h1 := charVal_digitChar (d := n / 1000 % 10) (Nat.mod_lt _ (by omega))
  have h2 := charVal_digitChar (d := n / 100 % 10) (Nat.mod_lt _ (by omega))
  have h3 := charVal_digitChar (d := n / 10 % 10) (Nat.mod_lt _ (by omega))
  have h4 := charVal_digitChar (d := n % 10) (Nat.mod_lt _ (by omega))
  simp only [parseNatChars, pad4, List.foldl, h1, h2, h3, h4]
  omega

theorem parse_pad2 {n : Nat} (h : n ≤ 99) : parseNatChars (pad2 n) = n := by
  have h1 := charVal_digitChar (d := n / 10 % 10) (Nat.mod_lt _ (by omega))
  have h2 := charVal_digitChar (d := n % 10) (Nat.mod_lt _ (by omega))
  simp only [parseNatChars, pad2, List.foldl, h1, h2]
  omega

theorem splitChar_ne_nil (sep : Char) : ∀ cs : List Char, splitChar sep cs ≠ [] := by
  intro cs
  cases cs with
  | nil => simp [splitChar]
  | cons c cs =>
    simp only [splitChar]
    split
    · simp
    · split <;> simp

theorem splitChar_no_sep {sep : Char} : ∀ {cs : List Char},
    (∀ c ∈ cs, c ≠ sep) → splitChar sep cs = [cs] := by
  intro cs
  induction cs with
  | nil => intro _; rfl
  | cons c cs ih =>
    intro h
    have hc : c ≠ sep := h c (by simp)
    simp only [splitChar, if_neg hc]
    rw [ih (fun x hx => h x (by simp [hx]))]

theorem splitChar_append {sep : Char} : ∀ {a : List Char} (b : List Char),
    (∀ c ∈ a, c ≠ sep) → splitChar sep (a ++ sep :: b) = a :: splitChar sep b := by
  intro a
  induction a with
  | nil => intro b _; simp [splitChar]
  | cons c cs ih =>
    intro b h
    have hc : c ≠ sep := h c (by simp)
    simp only [List.cons_append, splitChar, List.append_eq, if_neg hc,
      ih b (fun x hx => h x (by simp [hx]))]

theorem dropWhile_eq_self_of_forall {P : Char → Bool} : ∀ {cs : List Char},
    (∀ c ∈ cs, P c = false) → cs.dropWhile P = cs := by
  intro cs h
  cases cs with
  | nil => rfl
  | cons c cs => simp [List.dropWhile_cons, h c (by simp)]

theorem trimChars_eq_self {cs : List Char}
    (h : ∀ c ∈ cs, c.isWhitespace = false) : trimChars cs = cs := by
  unfold trimChars
  rw [dropWhile_eq_self_of_forall h]
  rw [dropWhile_eq_self_of_forall (fun c hc => h c (List.mem_reverse.mp hc))]
  exact List.reverse_reverse cs

theorem mem_formatYMD {c : Char} {y m d : Nat} (h : c ∈ formatYMD y m d) :
    (∃ k, k < 10 ∧ c = digitChar k) ∨ c = '-' := by
  rw [formatYMD] at h
  rcases List.mem_append.mp h with h | h
  · rcases List.mem_append.mp h with h | h
    · exact Or.inl (mem_pad4 h)
    · rcases List.mem_cons.mp h with rfl | h
      · exact Or.inr rfl
      · exact Or.inl (mem_pad2 h)
  · rcases List.mem_cons.mp h with rfl | h
    · exact Or.inr rfl
    · exact Or.inl (mem_pad2 h)

theorem formatYMD_no_ws {y m d : Nat} : ∀ c ∈ formatYMD y m d, c.isWhitespace = false := by
  intro c hc
  rcases mem_formatYMD hc with ⟨k, hk, rfl⟩ | rfl
  · exact not_ws_digitChar hk
  · decide

theorem splitChar_formatYMD {y m d : Nat} :
    splitChar '-' (formatYMD y m d) = [pad4 y, pad2 m, pad2 d] := by
  have h4 : ∀ c ∈ pad4 y, c ≠ '-' := by
    intro c hc
    obtain ⟨k, hk, rfl⟩ := mem_pad4 hc
    exact digitChar_ne_dash hk
  have h2m : ∀ c ∈ pad2 m, c ≠ '-' := by
    intro c hc
    obtain ⟨k, hk, rfl⟩ := mem_pad2 hc
    exact digitChar_ne_dash hk
  have h2d : ∀ c ∈ pad2 d, c ≠ '-' := by
    intro c hc
    obtain ⟨k, hk, rfl⟩ := mem_pad2 hc
    exact digitChar_ne_dash hk
  have hshape : formatYMD y m d = pad4 y ++ '-' :: (pad2 m ++ '-' :: pad2 d) := by
    simp [formatYMD]
  rw [hshape, splitChar_append _ h4, splitChar_append _ h2m, splitChar_no_sep h2d]

theorem pad4_all_digit (n : Nat) : (pad4 n).all Char.isDigit = true := by
  rw [List.all_eq_true]
  intro c hc
  obtain ⟨k, hk, rfl⟩ := mem_pad4 hc
  exact isDigit_digitChar hk

theorem pad2_all_digit (n : Nat) : (pad2 n).all Char.isDigit = true := by
  rw [List.all_eq_true]
  intro c hc
  obtain ⟨k, hk, rfl⟩ := mem_pad2 hc
  exact isDigit_digitChar hk

theorem pad4_length (n : Nat) : (pad4 n).length = 4 := rfl

theorem pad2_length (n : Nat) : (pad2 n).length = 2 := rfl

theorem tokYear_pad4 {y : Nat} (h : y ≤ 9999) : tokYear (pad4 y) = some y := by
  have hp := parse_pad4 h
  simp [tokYear, parseTok, pad4_all_digit, pad4_length, hp, h]

theorem tokMonth_pad2 {m : Nat} (h1 : 1 ≤ m) (h2 : m ≤ 12) : tokMonth (pad2 m) = some m := by
  have hp := parse_pad2 (n := m) (by omega)
  simp [tokMonth, parseTok, pad2_all_digit, pad2_length, hp, h1, h2]

theorem tokDay_pad2 {d : Nat} (h1 : 1 ≤ d) (h2 : d ≤ 31) : tokDay (pad2 d) = some d := by
  have hp := parse_pad2 (n := d) (by omega)
  simp [tokDay, parseTok, pad2_all_digit, pad2_length, hp, h1, h2]

theorem daysInMonth_le (y m : Nat) : daysInMonth y m ≤ 31 := by
  unfold daysInMonth
  split_ifs <;> omega

theorem validDate_bounds {y m d : Nat} (h : validDate y m d = true) :
    1 ≤ y ∧ y ≤ 9999 ∧ 1 ≤ m ∧ m ≤ 12 ∧ 1 ≤ d ∧ d ≤ 31 := by
  simp only [validDate, Bool.and_eq_true, decide_eq_true_eq] at h
  obtain ⟨⟨⟨⟨⟨h1, h2⟩, h3⟩, h4⟩, h5⟩, h6⟩ := h
  exact ⟨h1, h2, h3, h4, h5, le_trans h6 (daysInMonth_le y m)⟩

theorem mkDate_some {oy om od : Option Nat} {y m d : Nat}
    (h : mkDate oy om od = some (y, m, d)) : validDate y m d = true := by
  unfold mkDate at h
  split at h
  · split at h
    · injection h with h
      injection h with h1 h
      injection h with h2 h3
      subst h1; subst h2; subst h3
      assumption
    · exact absurd h (by simp)
  · exact absurd h (by simp)

theorem parseFormat_valid {sep : Char} {ord : DOrder} {cs : List Char} {y m d : Nat}
    (h : parseFormat sep ord cs = some (y, m, d)) : validDate y m d = true := by
  unfold parseFormat at h
  split at h
  · cases ord <;> exact mkDate_some h
  · exact absurd h (by simp)

theorem tryFormats_valid : ∀ (fs : List (Char × DOrder)) (cs : List Char) {y m d : Nat},
    tryFormats fs cs = some (y, m, d) → validDate y m d = true := by
  intro fs
  induction fs with
  | nil => intro cs y m d h; simp [tryFormats] at h
  | cons f fs ih =>
    intro cs y m d h
    unfold tryFormats at h
    cases hp : parseFormat f.1 f.2 cs with
    | some r =>
      rw [hp] at h
      injection h with h
      subst h
      exact parseFormat_valid hp
    | none =>
      rw [hp] at h
      exact ih cs h

theorem formatYMD_ne_nil {y m d : Nat} : formatYMD y m d ≠ [] := by
  simp [formatYMD, pad4]

/-- Re-normalising an already normalised date succeeds on the first format
(`%Y-%m-%d`) and reproduces the same string. -/
theorem standardize_date_roundtrip {y m d : Nat} (h : validDate y m d = true) :
    standardize_date (some (String.mk (formatYMD y m d)))
      = some (String.mk (formatYMD y m d)) := by
  obtain ⟨hy1, hy2, hm1, hm2, hd1, hd2⟩ := validDate_bounds h
  have hne : String.mk (formatYMD y m d) ≠ "" := by
    intro hcon
    exact formatYMD_ne_nil (congrArg String.data hcon)
  have htl : (String.mk (formatYMD y m d)).toList = formatYMD y m d := rfl
  have htrim : trimChars (formatYMD y m d) = formatYMD y m d :=
    trimChars_eq_self formatYMD_no_ws
  have hpf : parseFormat '-' DOrder.ymd (formatYMD y m d) = some (y, m, d) := by
    unfold parseFormat
    rw [splitChar_formatYMD]
    simp only
    rw [tokYear_pad4 hy2, tokMonth_pad2 hm1 hm2, tokDay_pad2 hd1 hd2]
    simp [mkDate, h]
  have htry : tryFormats dateFormats (formatYMD y m d) = some (y, m, d) := by
    unfold dateFormats tryFormats
    rw [hpf]
  simp only [standardize_date, htl, if_neg hne, htrim, htry]

/-- C9: `standardize_date` is idempotent on its own output — whenever the
inner call succeeds, re-normalising its `YYYY-MM-DD` result reproduces it
unchanged (the first format in the precedence list accepts it and the parsed
fields round-trip through the zero-padded output). -/
theorem c9_idempotent : ∀ (x : Option String) (s : String),
    standardize_date x = some s → standardize_date (some s) = some s := by
  intro x s h
  cases x with
  | none => exact absurd h (by simp [standardize_date])
  | some t =>
    simp only [standardize_date] at h
    by_cases ht : t = ""
    · rw [if_pos ht] at h
      exact absurd h (by simp)
    · rw [if_neg ht] at h
      cases htry : tryFormats dateFormats (trimChars t.toList) with
      | none => rw [htry] at h; exact absurd h (by simp)
      | some r =>
        obtain ⟨yy, mm, dd⟩ := r
        rw [htry] at h
        simp only [Option.some.injEq] at h
        rw [← h]
        exact standardize_date_roundtrip (tryFormats_valid dateFormats (trimChars t.toList) htry)

/-- Witness for C9 at a concrete input: `15/01/2024` normalises to
`2024-01-15`, which re-normalises to itself. -/
theorem c9_witness : standardize_date (some "2024-01-15") = some "2024-01-15" :=
  c9_idempotent (some "15/01/2024") "2024-01-15" (by decide)

/-- Python `str.title()` (ASCII model): a letter is uppercased when the
previous character is not a letter, lowercased otherwise. -/
def titleCaseGo : Bool → List Char → List Char
  | _, [] => []
  | prevAlpha, c :: cs =>
    (if prevAlpha then c.toLower else c.toUpper) :: titleCaseGo c.isAlpha cs

/-- `standardize_category` (etl_pipeline.py:108-126): null or empty gives
null, otherwise strip and convert to title case. -/
def standardize_category (x : Option String) : Option String :=
  match x with
  | none => none
  | some s =>
    if s = "" then none
    else some (String.mk (titleCaseGo false (trimChars s.toList)))

/-- `drop_duplicates(subset=[key], keep="first")`, with the keys already seen
threaded through. -/
def dedupByKeyAux {α κ : Type} (key : α → κ) [DecidableEq κ] (seen : List κ) : List α → List α
  | [] => []
  | x :: xs =>
    if key x ∈ seen then dedupByKeyAux key seen xs
    else x :: dedupByKeyAux key (key x :: seen) xs

/-- pandas `drop_duplicates` on one key column, keeping first occurrences. -/
def dedupByKey {α κ : Type} (key : α → κ) [DecidableEq κ] (l : List α) : List α :=
  dedupByKeyAux key [] l

/-- `df.insert(0, "id", range(start, start + len(df)))`: pair each row with a
consecutive surrogate id. -/
def withIds {α : Type} (start : Nat) : List α → List (Nat × α)
  | [] => []
  | x :: xs => (start, x) :: withIds (start + 1) xs

theorem withIds_getElem? {α : Type} : ∀ (start : Nat) (l : List α) (i : Nat),
    (withIds start l)[i]? = l[i]?.map (fun x => (start + i, x)) := by
  intro start l
  induction l generalizing start with
  | nil => intro i; simp [withIds]
  | cons x xs ih =>
    intro i
    cases i with
    | zero => simp [withIds]
    | succ j =>
      simp only [withIds, List.getElem?_cons_succ, ih (start + 1) j]
      have harith : start + 1 + j = start + (j + 1) := by omega
      rw [harith]

/-- A raw `customers_raw.csv` row; every column but the natural key may be
missing. -/
structure RawCustomer where
  customer_id : String
  first_name : Option String
  last_name : Option String
  email : Option String
  phone : Option String
  city : Option String
  registration_date : Option String
deriving DecidableEq

/-- A cleansed customer row (the raw columns plus the surrogate `id`). -/
structure CustomerOut where
  id : Nat
  customer_id : String
  first_name : Option String
  last_name : Option String
  email : Option String
  phone : Option String
  city : Option String
  registration_date : Option String
deriving DecidableEq

/-- Python `str.lower()` (per-character model over the code points). -/
def lowerStr (s : String) : String := String.mk (s.toList.map Char.toLower)

/-- The missing-email fill (etl_pipeline.py:190-199):
`first_name.str.lower() + "." + last_name.str.lower() + "@unknown.com"` on
the masked rows; pandas string concatenation propagates `NaN`, so a missing
name leaves the synthesized email itself missing. -/
def fillEmail (r : RawCustomer) : RawCustomer :=
  match r.email with
  | some _ => r
  | none =>
    match r.first_name, r.last_name with
    | some f, some l =>
      { r with email := some (lowerStr f ++ "." ++ lowerStr l ++ "@unknown.com") }
    | _, _ => r

/-- `transform_customers` (etl_pipeline.py:163-216): dedup on `customer_id`
keeping first, fill missing emails, standardize phones and dates, and assign
surrogate ids 1..N. -/
def transform_customers (raw : List RawCustomer) : List CustomerOut :=
  let df := dedupByKey (fun r => r.customer_id) raw
  let df2 := df.map fillEmail
  let df3 := df2.map (fun r => { r with phone := standardize_phone r.phone })
  let df4 := df3.map (fun r => { r with registration_date := standardize_date r.registration_date })
  (withIds 1 df4).map (fun p =>
    { id := p.1, customer_id := p.2.customer_id, first_name := p.2.first_name,
      last_name := p.2.last_name, email := p.2.email, phone := p.2.phone,
      city := p.2.city, registration_date := p.2.registration_date })

/-- A raw customer whose email and first name are both missing. -/
def c3missingNameRaw : List RawCustomer :=
  [{ customer_id := "C1", first_name := none, last_name := some "Doe",
     email := none, phone := none, city := none, registration_date := none }]

/-- C3 counterexample: on a row with a missing email and a missing
`first_name`, the synthesized email is itself missing (pandas `NaN`
propagates through the concatenation), so the cleansed output contains a
customer with a null email, refuting the claim as stated. -/
theorem c3_counterexample :
    ¬ (∀ c ∈ transform_customers c3missingNameRaw, c.email ≠ none) := by
  decide

/-- C3 amended: the cleansed email of the `i`-th customer is the raw email of
the `i`-th post-dedup row when that is present; when the raw email is missing
and both names are present it is the synthesized
`lower(first_name).lower(last_name)@unknown.com`; in particular every
customer whose names are both present has a non-null email (the claim's
non-null invariant holds except for rows that are missing a name as well as
the email). -/
theorem c3_amended : ∀ (raw : List RawCustomer) (i : Nat) (c : CustomerOut),
    (transform_customers raw)[i]? = some c →
    ∃ r, (dedupByKey (fun rr => rr.customer_id) raw)[i]? = some r ∧
      (∀ e, r.email = some e → c.email = some e) ∧
      (∀ f l, r.email = none → r.first_name = some f → r.last_name = some l →
        c.email = some (lowerStr f ++ "." ++ lowerStr l ++ "@unknown.com")) ∧
      (r.first_name ≠ none → r.last_name ≠ none → c.email ≠ none) := by
  intro raw i c h
  unfold transform_customers at h
  simp only [List.getElem?_map, withIds_getElem?] at h
  cases hr : (dedupByKey (fun rr => rr.customer_id) raw)[i]? with
  | none => rw [hr] at h; exact absurd h (by simp)
  | some r =>
    rw [hr] at h
    simp only [Option.map_some', Option.some.injEq] at h
    subst h
    refine ⟨r, rfl, ?_, ?_, ?_⟩
    · intro e he
      simp [fillEmail, he]
    · intro f l he hf hl
      simp [fillEmail, he, hf, hl]
    · intro hf hl
      cases he : r.email with
      | some e => simp [fillEmail, he]
      | none =>
        cases hfn : r.first_name with
        | none => exact absurd hfn hf
        | some f =>
          cases hln : r.last_name with
          | none => exact absurd hln hl
          | some l => simp [fillEmail, he, hfn, hln]

/-- A raw customer with a missing email but both names present. -/
def c3goodRaw : List RawCustomer :=
  [{ customer_id := "C1", first_name := some "Jane", last_name := some "Doe",
     email := none, phone := none, city := none, registration_date := none }]

/-- The cleansed row the pipeline produces for `c3goodRaw`. -/
def c3goodOut : CustomerOut :=
  { id := 1, customer_id := "C1", first_name := some "Jane", last_name := some "Doe",
    email := some "jane.doe@unknown.com", phone := none, city := none,
    registration_date := none }

/-- Witness for the amended C3 at a concrete input: the row with both names
present and no email gets `jane.doe@unknown.com`. -/
theorem c3_witness :
    ∃ r, (dedupByKey (fun rr => rr.customer_id) c3goodRaw)[0]? = some r ∧
      (∀ e, r.email = some e → c3goodOut.email = some e) ∧
      (∀ f l, r.email = none → r.first_name = some f → r.last_name = some l →
        c3goodOut.email = some (lowerStr f ++ "." ++ lowerStr l ++ "@unknown.com")) ∧
      (r.first_name ≠ none → r.last_name ≠ none → c3goodOut.email ≠ none) :=
  c3_amended c3goodRaw 0 c3goodOut (by decide)

/-- A raw `products_raw.csv` row. -/
structure RawProduct where
  product_id : String
  product_name : Option String
  category : Option String
  price : Option Rat
  stock_quantity : Option Int
deriving DecidableEq

/-- A cleansed product row. -/
structure ProductOut where
  id : Nat
  product_id : String
  product_name : Option String
  category : Option String
  price : Option Rat
  stock_quantity : Option Int
deriving DecidableEq

/-- `a + b` over `Rat`, written out on the normalised representation
(Batteries marks `Rat.add` irreducible, which blocks kernel evaluation;
this computes the same rational). -/
def ratAdd (a b : Rat) : Rat := mkRat (a.num * b.den + b.num * a.den) (a.den * b.den)

/-- `a / 2` over `Rat`. -/
def halfRat (a : Rat) : Rat := mkRat a.num (a.den * 2)

/-- `q * p` for an integer quantity and a rational price. -/
def intMulRat (q : Int) (p : Rat) : Rat := mkRat (q * p.num) p.den

/-- Boolean `a ≤ b` on `Rat` (via the executable strict comparison). -/
def ratLeB (a b : Rat) : Bool := !(Rat.blt b a)

/-- Sum of a list of rationals. -/
def ratSum (l : List Rat) : Rat := l.foldr ratAdd 0

/-- Insertion into a sorted list of rationals. -/
def ratSortInsert (x : Rat) : List Rat → List Rat
  | [] => [x]
  | y :: ys => if ratLeB x y then x :: y :: ys else y :: ratSortInsert x ys

/-- Sort a list of rationals ascending. -/
def ratSort : List Rat → List Rat
  | [] => []
  | x :: xs => ratSortInsert x (ratSort xs)

/-- pandas `median()` over the non-null values handed to it: the middle of
the sorted list, or the mean of the two middles for even length; the median
of an empty list is `NaN` (here `none`). -/
def median (l : List Rat) : Option Rat :=
  match l with
  | [] => none
  | _ :: _ =>
    let s := ratSort l
    let n := s.length
    if n % 2 = 1 then some (s.getD (n / 2) 0)
    else some (halfRat (ratAdd (s.getD (n / 2 - 1) 0) (s.getD (n / 2) 0)))

/-- `df.groupby("category")["price"].median()` looked up at one raw category
value (etl_pipeline.py:248,253): `none` when the row's category is missing
(pandas drops `NaN` group keys), when the category does not occur, or when no
record of that category has a price — exactly the cases in which the source
falls back to the overall median. -/
def catMedian (df : List RawProduct) (c : Option String) : Option Rat :=
  match c with
  | none => none
  | some cat => median (df.filterMap (fun r => if r.category = some cat then r.price else none))

/-- The price-filling loop (etl_pipeline.py:251-257): rows missing a price
are visited in order; each takes its category's median when that is defined
and otherwise the median of the price column *at that moment* (`done` holds
the already-visited rows, fills included; `todo` the rest). -/
def fillPricesGo (catMed : Option String → Option Rat) :
    List RawProduct → List RawProduct → List RawProduct
  | done, [] => done
  | done, r :: rs =>
    match r.price with
    | some _ => fillPricesGo catMed (done ++ [r]) rs
    | none =>
      let newP :=
        match catMed r.category with
        | some mval => some mval
        | none => median ((done ++ r :: rs).filterMap (fun q => q.price))
      fillPricesGo catMed (done ++ [{ r with price := newP }]) rs

/-- The missing-price block (etl_pipeline.py:244-259): the loop runs only
when some price is missing; the per-category medians are computed once on the
post-dedup frame before any fill. -/
def fill_missing_prices (df : List RawProduct) : List RawProduct :=
  if df.any (fun r => decide (r.price = none)) then fillPricesGo (catMedian df) [] df else df

/-- The missing-stock block (etl_pipeline.py:261-265): `fillna(0)` when some
stock value is missing. -/
def fill_missing_stock (df2 : List RawProduct) : List RawProduct :=
  if df2.any (fun r => decide (r.stock_quantity = none)) then
    df2.map (fun r => { r with stock_quantity := some (r.stock_quantity.getD 0) })
  else df2

/-- `transform_products` (etl_pipeline.py:218-278): dedup on `product_id`,
fill missing prices (category median, overall-median fallback) when any are
missing, fill missing stock with 0 when any is missing, normalise the
category to title case, and assign surrogate ids 1..N. -/
def transform_products (raw : List RawProduct) : List ProductOut :=
  let df := dedupByKey (fun r => r.product_id) raw
  let df4 := (fill_missing_stock (fill_missing_prices df)).map
    (fun r => { r with category := standardize_category r.category })
  (withIds 1 df4).map (fun p =>
    { id := p.1, product_id := p.2.product_id, product_name := p.2.product_name,
      category := p.2.category, price := p.2.price, stock_quantity := p.2.stock_quantity })

/-- Some record of the collection carries a price. -/
def HasPriced (l : List RawProduct) : Prop := ∃ r ∈ l, r.price ≠ none

theorem median_ne_none {l : List Rat} (h : l ≠ []) : median l ≠ none := by
  cases l with
  | nil => exact absurd rfl h
  | cons x xs =>
    simp only [median]
    split <;> simp

theorem withIds_mem {α : Type} : ∀ {n : Nat} {l : List α} {q : Nat × α},
    q ∈ withIds n l → q.2 ∈ l := by
  intro n l
  induction l generalizing n with
  | nil => intro q hq; exact absurd hq (by simp [withIds])
  | cons x xs ih =>
    intro q hq
    simp only [withIds, List.mem_cons] at hq
    rcases hq with rfl | hq
    · simp
    · exact List.mem_cons_of_mem x (ih hq)

/-- Every row leaving the price-filling loop has a price, provided some row
of the whole frame had one: rows already priced are untouched, a category
median fill is non-null by definition, and the overall-median fallback is
taken over a price column that still contains the priced witness. -/
theorem fillPricesGo_price_ne_none (catMed : Option String → Option Rat) :
    ∀ (todo done : List RawProduct),
      HasPriced (done ++ todo) → (∀ r ∈ done, r.price ≠ none) →
      ∀ x ∈ fillPricesGo catMed done todo, x.price ≠ none := by
  intro todo
  induction todo with
  | nil =>
    intro done _ hdone x hx
    simp only [fillPricesGo] at hx
    exact hdone x hx
  | cons r rs ih =>
    intro done hp hdone x hx
    have hnext : ∀ (nr : RawProduct), nr.price ≠ none →
        x ∈ fillPricesGo catMed (done ++ [nr]) rs → x.price ≠ none := by
      intro nr hnr hx2
      refine ih (done ++ [nr]) ⟨nr, by simp, hnr⟩ ?_ x hx2
      intro q hq
      rcases List.mem_append.mp hq with h | h
      · exact hdone q h
      · rw [List.mem_singleton.mp h]; exact hnr
    cases hpr : r.price with
    | some v =>
      refine hnext r (by simp [hpr]) ?_
      simpa [fillPricesGo, hpr] using hx
    | none =>
      cases hcm : catMed r.category with
      | some mval =>
        refine hnext { r with price := some mval } (by simp) ?_
        simpa [fillPricesGo, hpr, hcm] using hx
      | none =>
        have hfm : (done ++ r :: rs).filterMap (fun q => q.price) ≠ [] := by
          obtain ⟨w, hw, hwp⟩ := hp
          cases hwv : w.price with
          | none => exact absurd hwv hwp
          | some v =>
            have hv : v ∈ (done ++ r :: rs).filterMap (fun q => q.price) :=
              List.mem_filterMap.mpr ⟨w, hw, by rw [hwv]⟩
            intro hnil
            rw [hnil] at hv
            exact List.not_mem_nil v hv
        cases hmv : median ((done ++ r :: rs).filterMap (fun q => q.price)) with
        | none => exact absurd hmv (median_ne_none hfm)
        | some fb =>
          refine hnext { r with price := some fb } (by simp) ?_
          have hx2 := hx
          simp only [fillPricesGo, hpr, hcm] at hx2
          rw [hmv] at hx2
          exact hx2

theorem fill_missing_prices_ne_none {df : List RawProduct} (h : HasPriced df) :
    ∀ x ∈ fill_missing_prices df, x.price ≠ none := by
  unfold fill_missing_prices
  split
  · exact fillPricesGo_price_ne_none (catMedian df) df [] (by simpa using h) (by simp)
  · intro x hx hxp
    rename_i hany
    rw [Bool.not_eq_true, List.any_eq_false] at hany
    exact absurd (decide_eq_true hxp) (by simpa using hany x hx)

theorem fill_missing_stock_mem {d : List RawProduct} {x : RawProduct}
    (h : x ∈ fill_missing_stock d) : ∃ y ∈ d, x.price = y.price := by
  unfold fill_missing_stock at h
  split at h
  · obtain ⟨y, hy, rfl⟩ := List.mem_map.mp h
    exact ⟨y, hy, rfl⟩
  · exact ⟨x, h, rfl⟩

theorem fill_missing_stock_ne_none {d : List RawProduct} :
    ∀ x ∈ fill_missing_stock d, x.stock_quantity ≠ none := by
  intro x hx
  unfold fill_missing_stock at hx
  split at hx
  · obtain ⟨y, _, rfl⟩ := List.mem_map.mp hx
    simp
  · rename_i hany
    rw [Bool.not_eq_true, List.any_eq_false] at hany
    intro hxs
    exact absurd (decide_eq_true hxs) (by simpa using hany x hx)

/-- A dataset in which no record carries any price. -/
def c4allMissingRaw : List RawProduct :=
  [{ product_id := "P1", product_name := some "Widget", category := some "X",
     price := none, stock_quantity := none }]

/-- C4 counterexample: when no record of the dataset has a price at all, both
the category median and the overall-median fallback are `NaN` (the median of
an empty set), so the missing price survives cleansing as null, refuting the
claim's unconditional non-null invariant. -/
theorem c4_counterexample :
    ¬ (∀ p ∈ transform_products c4allMissingRaw, p.price ≠ none) := by
  decide

/-- Scenario C of the spec: two Electronics rows priced 100 and 200 and one
Electronics row with a missing price. -/
def c4scenarioC : List RawProduct :=
  [{ product_id := "P1", product_name := some "A", category := some "Electronics",
     price := some 100, stock_quantity := some 1 },
   { product_id := "P2", product_name := some "B", category := some "Electronics",
     price := some 200, stock_quantity := some 1 },
   { product_id := "P3", product_name := some "C", category := some "Electronics",
     price := none, stock_quantity := some 1 }]

/-- C4 amended: every cleansed product has a non-null `stock_quantity`
(missing stock is filled with 0), and a non-null price *provided at least one
post-dedup record has a price*; a missing price takes its category's median
when the raw category has priced members (scenario C: 100 and 200 give 150)
and otherwise the median of the price column at fill time, which exists
unless every record of the dataset is priceless — in that degenerate case
missing prices remain null. -/
theorem c4_amended :
    (∀ (raw : List RawProduct), ∀ p ∈ transform_products raw,
        p.stock_quantity ≠ none ∧
        ((∃ r ∈ dedupByKey (fun rr => rr.product_id) raw, r.price ≠ none) → p.price ≠ none)) ∧
    (transform_products c4scenarioC).map (fun p => p.price)
      = [some 100, some 200, some 150] := by
  constructor
  · intro raw p hp
    simp only [transform_products] at hp
    obtain ⟨q, hq, rfl⟩ := List.mem_map.mp hp
    have hq2 := withIds_mem hq
    obtain ⟨r3, hr3, hcat⟩ := List.mem_map.mp hq2
    constructor
    · show q.2.stock_quantity ≠ none
      rw [← hcat]
      exact fill_missing_stock_ne_none r3 hr3
    · intro hpriced
      show q.2.price ≠ none
      rw [← hcat]
      show r3.price ≠ none
      obtain ⟨r2, hr2, hpeq⟩ := fill_missing_stock_mem hr3
      rw [hpeq]
      exact fill_missing_prices_ne_none hpriced r2 hr2
  · decide

/-- The first raw row of scenario C. -/
def c4rawHead : RawProduct :=
  { product_id := "P1", product_name := some "A", category := some "Electronics",
    price := some 100, stock_quantity := some 1 }

/-- The first cleansed row of scenario C. -/
def c4outHead : ProductOut :=
  { id := 1, product_id := "P1", product_name := some "A",
    category := some "Electronics", price := some 100, stock_quantity := some 1 }

/-- Witness for the amended C4 at scenario C: the first cleansed product has
non-null stock and price. -/
theorem c4_witness :
    c4outHead.stock_quantity ≠ none ∧ c4outHead.price ≠ none := by
  have h := c4_amended.1 c4scenarioC c4outHead (by decide)
  exact ⟨h.1, h.2 ⟨c4rawHead, by decide, by decide⟩⟩

/-- The C10 dataset: three rows whose raw category is lowercase
`"electronics"` (prices 100, 200 and one missing) and one row with raw
category `"Electronics"` priced 1000. -/
def c10raw : List RawProduct :=
  [{ product_id := "P1", product_name := some "A", category := some "electronics",
     price := some 100, stock_quantity := some 5 },
   { product_id := "P2", product_name := some "B", category := some "electronics",
     price := some 200, stock_quantity := some 5 },
   { product_id := "P3", product_name := some "C", category := some "electronics",
     price := none, stock_quantity := some 5 },
   { product_id := "P4", product_name := some "D", category := some "Electronics",
     price := some 1000, stock_quantity := some 5 }]

/-- C10: the per-category median used for filling groups on the *raw*
category values, because title-casing runs only after the price fill: the
missing `"electronics"` price is filled with 150 (the median of 100 and 200,
`"Electronics"` at 1000 being a different raw key, as `catMedian` on the raw
key also shows), although pooling by the *normalised* category label would
give 200, and in the cleansed output all four rows carry the identical
category `"Electronics"`. -/
theorem c10_raw_category_median :
    (transform_products c10raw).map (fun p => p.price)
        = [some 100, some 200, some 150, some 1000] ∧
    catMedian (dedupByKey (fun rr => rr.product_id) c10raw) (some "electronics")
        = some 150 ∧
    median ((dedupByKey (fun rr => rr.product_id) c10raw).filterMap
        (fun r => if standardize_category r.category = some "Electronics" then r.price else none))
        = some 200 ∧
    (transform_products c10raw).map (fun p => p.category)
        = [some "Electronics", some "Electronics", some "Electronics", some "Electronics"] ∧
    (some (150 : Rat) ≠ some (200 : Rat)) := by
  refine ⟨by decide, by decide, by decide, by decide, by decide⟩

/-- A cleansed sales row (the columns of `self.sales_df` that
`transform_sales_to_orders` consumes). -/
structure Sale where
  customer_id : Option String
  product_id : Option String
  quantity : Int
  unit_price : Rat
  transaction_date : Option String
  status : Option String
deriving DecidableEq

/-- A sales line after natural ids have been remapped to store ids and the
subtotal computed (etl_pipeline.py:617-628). -/
structure SaleLine where
  db_customer_id : Nat
  db_product_id : Nat
  quantity : Int
  unit_price : Rat
  subtotal : Rat
  transaction_date : Option String
  status : Option String
deriving DecidableEq

/-- Python dict lookup with a string key (`Series.map(mapping)` /
`mapping.get`): `none` when the key is absent. -/
def lookupStr (m : List (String × Nat)) (k : String) : Option Nat :=
  (m.find? (fun p => p.1 == k)).map (fun p => p.2)

/-- Python dict lookup with an integer key. -/
def lookupNat (m : List (Nat × Nat)) (k : Nat) : Option Nat :=
  (m.find? (fun p => p.1 == k)).map (fun p => p.2)

/-- etl_pipeline.py:611-628: keep rows whose natural customer and product ids
are present and found in the two persisted-id mappings, attach the mapped
ids, and compute `subtotal = quantity * unit_price`. -/
def enrichLines (sales : List Sale) (cm pm : List (String × Nat)) : List SaleLine :=
  sales.filterMap (fun s =>
    match s.customer_id, s.product_id with
    | some c, some p =>
      match lookupStr cm c, lookupStr pm p with
      | some dc, some dp =>
        some { db_customer_id := dc, db_product_id := dp, quantity := s.quantity,
               unit_price := s.unit_price, subtotal := intMulRat s.quantity s.unit_price,
               transaction_date := s.transaction_date, status := s.status }
      | _, _ => none
    | _, _ => none)

/-- Python string `<` (code-point lexicographic comparison). -/
def charsLtB : List Char → List Char → Bool
  | [], [] => false
  | [], _ :: _ => true
  | _ :: _, [] => false
  | a :: as, b :: bs =>
    if a.toNat < b.toNat then true
    else if b.toNat < a.toNat then false
    else charsLtB as bs

/-- Python string `<` on `String`. -/
def strLtB (a b : String) : Bool := charsLtB a.toList b.toList

/-- `(customer, date) ≤ (customer, date)` — the ascending key order pandas
sorts group keys by. -/
def keyLeB (a b : Nat × String) : Bool :=
  if a.1 = b.1 then !(strLtB b.2 a.2) else decide (a.1 < b.1)

/-- Insertion into a key-sorted list. -/
def insertKeySorted (k : Nat × String) : List (Nat × String) → List (Nat × String)
  | [] => [k]
  | x :: xs => if keyLeB k x then k :: x :: xs else x :: insertKeySorted k xs

/-- Sort group keys ascending. -/
def sortKeys : List (Nat × String) → List (Nat × String)
  | [] => []
  | k :: ks => insertKeySorted k (sortKeys ks)

/-- `sales_df.groupby(["db_customer_id", "transaction_date"])`
(etl_pipeline.py:636): rows with a missing date are dropped (pandas drops
null group keys), the distinct keys are sorted ascending (groupby sorts
keys), and each group holds its member lines in their original order. -/
def salesGroups (lines : List SaleLine) : List ((Nat × String) × List SaleLine) :=
  let keys := sortKeys (dedupByKey (fun k => k)
    (lines.filterMap (fun l => l.transaction_date.map (fun dt => (l.db_customer_id, dt)))))
  keys.map (fun k => (k, lines.filter
    (fun l => decide (l.db_customer_id = k.1 ∧ l.transaction_date = some k.2))))

/-- `group["status"].mode()[0]` (etl_pipeline.py:643): pandas drops the null
statuses, and `mode()` returns the values of maximal frequency sorted
ascending, so `[0]` is the lexicographically smallest most-frequent value;
`none` when the group has no non-null status. -/
def statusMode (vs : List String) : Option String :=
  match vs.filter (fun v => vs.all (fun w => decide (vs.count w ≤ vs.count v))) with
  | [] => none
  | c :: cs => some (cs.foldl (fun acc x => if strLtB x acc then x else acc) c)

/-- An aggregated order (etl_pipeline.py:646-652); `order_id` is the
pre-persistence local counter value. -/
structure Order where
  order_id : Nat
  customer_id : Nat
  order_date : String
  total_amount : Rat
  status : String
deriving DecidableEq

/-- An order line (etl_pipeline.py:655-662); `order_id` is the local order
counter, rewritten to the persisted order id at load time. -/
structure OrderItem where
  order_id : Nat
  product_id : Nat
  quantity : Int
  unit_price : Rat
  subtotal : Rat
deriving DecidableEq

/-- One order record for a `(customer, date)` group. -/
def mkOrder (c : Nat) (k : Nat × String) (g : List SaleLine) : Order :=
  { order_id := c, customer_id := k.1, order_date := k.2,
    total_amount := ratSum (g.map (fun l => l.subtotal)),
    status := (statusMode (g.filterMap (fun l => l.status))).getD "Completed" }

/-- One order line for a sales line of the group. -/
def mkItem (c : Nat) (l : SaleLine) : OrderItem :=
  { order_id := c, product_id := l.db_product_id, quantity := l.quantity,
    unit_price := l.unit_price, subtotal := l.subtotal }

/-- The aggregation loop's order records, with the running
`order_id_counter` (etl_pipeline.py:631-664). -/
def emitOrders : Nat → List ((Nat × String) × List SaleLine) → List Order
  | _, [] => []
  | c, (k, g) :: rest => mkOrder c k g :: emitOrders (c + 1) rest

/-- The aggregation loop's order lines, appended group by group under the
same counter. -/
def emitItems : Nat → List ((Nat × String) × List SaleLine) → List OrderItem
  | _, [] => []
  | c, (_, g) :: rest => g.map (mkItem c) ++ emitItems (c + 1) rest

/-- `transform_sales_to_orders` (etl_pipeline.py:597-669). -/
def transform_sales_to_orders (sales : List Sale) (cm pm : List (String × Nat)) :
    List Order × List OrderItem :=
  let gs := salesGroups (enrichLines sales cm pm)
  (emitOrders 1 gs, emitItems 1 gs)

theorem emitOrders_id_ge : ∀ (c : Nat) (gs : List ((Nat × String) × List SaleLine))
    (o : Order), o ∈ emitOrders c gs → c ≤ o.order_id := by
  intro c gs
  induction gs generalizing c with
  | nil => intro o ho; exact absurd ho (by simp [emitOrders])
  | cons kg rest ih =>
    intro o ho
    obtain ⟨k, g⟩ := kg
    simp only [emitOrders, List.mem_cons] at ho
    rcases ho with rfl | ho
    · exact le_refl c
    · exact le_trans (by omega) (ih (c + 1) o ho)

theorem emitItems_id_ge : ∀ (c : Nat) (gs : List ((Nat × String) × List SaleLine))
    (it : OrderItem), it ∈ emitItems c gs → c ≤ it.order_id := by
  intro c gs
  induction gs generalizing c with
  | nil => intro it hit; exact absurd hit (by simp [emitItems])
  | cons kg rest ih =>
    intro it hit
    obtain ⟨k, g⟩ := kg
    simp only [emitItems, List.mem_append] at hit
    rcases hit with hit | hit
    · obtain ⟨l, _, rfl⟩ := List.mem_map.mp hit
      exact le_refl c
    · exact le_trans (by omega) (ih (c + 1) it hit)

theorem emitItems_mem : ∀ (c : Nat) (gs : List ((Nat × String) × List SaleLine))
    (it : OrderItem), it ∈ emitItems c gs →
    ∃ kg ∈ gs, ∃ l ∈ kg.2, ∃ j, it = mkItem j l := by
  intro c gs
  induction gs generalizing c with
  | nil => intro it hit; exact absurd hit (by simp [emitItems])
  | cons kg rest ih =>
    intro it hit
    obtain ⟨k, g⟩ := kg
    simp only [emitItems, List.mem_append] at hit
    rcases hit with hit | hit
    · obtain ⟨l, hl, rfl⟩ := List.mem_map.mp hit
      exact ⟨(k, g), by simp, l, hl, c, rfl⟩
    · obtain ⟨kg2, hkg2, l, hl, j, rfl⟩ := ih (c + 1) it hit
      exact ⟨kg2, List.mem_cons_of_mem _ hkg2, l, hl, j, rfl⟩

/-- Each emitted order's total is the sum of the subtotals of exactly the
emitted items carrying its local order id: its own group's items all carry
its counter value, and every other group's items carry a different one. -/
theorem emitOrders_total : ∀ (c : Nat) (gs : List ((Nat × String) × List SaleLine))
    (o : Order), o ∈ emitOrders c gs →
    o.total_amount = ratSum (((emitItems c gs).filter
      (fun it => decide (it.order_id = o.order_id))).map (fun it => it.subtotal)) := by
  intro c gs
  induction gs generalizing c with
  | nil => intro o ho; exact absurd ho (by simp [emitOrders])
  | cons kg rest ih =>
    intro o ho
    obtain ⟨k, g⟩ := kg
    simp only [emitOrders, List.mem_cons] at ho
    rcases ho with rfl | ho
    · have hkeep : (g.map (mkItem c)).filter
          (fun it => decide (it.order_id = (mkOrder c k g).order_id)) = g.map (mkItem c) := by
        rw [List.filter_eq_self]
        intro it hit
        obtain ⟨l, _, rfl⟩ := List.mem_map.mp hit
        simp [mkItem, mkOrder]
      have hdrop : (emitItems (c + 1) rest).filter
          (fun it => decide (it.order_id = (mkOrder c k g).order_id)) = [] := by
        rw [List.filter_eq_nil_iff]
        intro it hit
        have := emitItems_id_ge (c + 1) rest it hit
        simp only [mkOrder, decide_eq_true_eq]
        omega
      simp only [emitItems, List.filter_append, hkeep, hdrop, List.append_nil,
        List.map_map]
      rfl
    · have hne : c ≠ o.order_id := by
        have := emitOrders_id_ge (c + 1) rest o ho
        omega
      have hdrop : (g.map (mkItem c)).filter
          (fun it => decide (it.order_id = o.order_id)) = [] := by
        rw [List.filter_eq_nil_iff]
        intro it hit
        obtain ⟨l, _, rfl⟩ := List.mem_map.mp hit
        simp only [mkItem, decide_eq_true_eq]
        exact hne
      simp only [emitItems, List.filter_append, hdrop, List.nil_append]
      exact ih (c + 1) o ho

theorem enrichLines_subtotal {sales : List Sale} {cm pm : List (String × Nat)} :
    ∀ l ∈ enrichLines sales cm pm, l.subtotal = intMulRat l.quantity l.unit_price := by
  intro l hl
  obtain ⟨s, _, he⟩ := List.mem_filterMap.mp hl
  split at he
  · split at he
    · simp only [Option.some.injEq] at he
      rw [← he]
    · exact absurd he (by simp)
  · exact absurd he (by simp)

theorem salesGroups_sub {lines : List SaleLine} :
    ∀ kg ∈ salesGroups lines, ∀ l ∈ kg.2, l ∈ lines := by
  intro kg hkg l hl
  simp only [salesGroups] at hkg
  obtain ⟨k, _, rfl⟩ := List.mem_map.mp hkg
  exact (List.mem_filter.mp hl).1

/-- The sales row of the claim's concrete scenario: quantity 3 at 10.00. -/
def c7sale : Sale :=
  { customer_id := some "C1", product_id := some "P1", quantity := 3, unit_price := 10,
    transaction_date := some "2024-01-15", status := some "Completed" }

/-- The single order produced for `c7sale`. -/
def c7order : Order :=
  { order_id := 1, customer_id := 7, order_date := "2024-01-15", total_amount := 30,
    status := "Completed" }

/-- C7: for every input, each Order produced by `transform_sales_to_orders`
has `total_amount` equal to the sum of the subtotals of exactly the
OrderItems carrying its local order id, every emitted OrderItem's subtotal is
`quantity × unit_price`, and the concrete single-line scenario (quantity 3 at
10.00) yields one order with total 30.00 and one item with subtotal 30.00. -/
theorem c7_totals :
    (∀ (sales : List Sale) (cm pm : List (String × Nat)),
      (∀ o ∈ (transform_sales_to_orders sales cm pm).1,
        o.total_amount = ratSum (((transform_sales_to_orders sales cm pm).2.filter
          (fun it => decide (it.order_id = o.order_id))).map (fun it => it.subtotal))) ∧
      (∀ it ∈ (transform_sales_to_orders sales cm pm).2,
        it.subtotal = intMulRat it.quantity it.unit_price)) ∧
    ((transform_sales_to_orders [c7sale] [("C1", 7)] [("P1", 9)]).1.map
        (fun o => o.total_amount) = [(30 : Rat)] ∧
      (transform_sales_to_orders [c7sale] [("C1", 7)] [("P1", 9)]).2.map
        (fun it => it.subtotal) = [(30 : Rat)]) := by
  constructor
  · intro sales cm pm
    constructor
    · intro o ho
      exact emitOrders_total 1 (salesGroups (enrichLines sales cm pm)) o ho
    · intro it hit
      obtain ⟨kg, hkg, l, hl, j, rfl⟩ :=
        emitItems_mem 1 (salesGroups (enrichLines sales cm pm)) it hit
      have hline : l ∈ enrichLines sales cm pm := salesGroups_sub kg hkg l hl
      have hsub := enrichLines_subtotal l hline
      show l.subtotal = intMulRat l.quantity l.unit_price
      exact hsub
  · exact ⟨by decide, by decide⟩

/-- Witness for C7 at the concrete scenario: the produced order's total is
the sum of its items' subtotals. -/
theorem c7_witness :
    c7order.total_amount = ratSum (((transform_sales_to_orders [c7sale]
      [("C1", 7)] [("P1", 9)]).2.filter
        (fun it => decide (it.order_id = c7order.order_id))).map (fun it => it.subtotal)) :=
  (c7_totals.1 [c7sale] [("C1", 7)] [("P1", 9)]).1 c7order (by decide)

theorem charsLtB_irrefl : ∀ (a : List Char), charsLtB a a = false := by
  intro a
  induction a with
  | nil => rfl
  | cons x xs ih => simp [charsLtB, ih]

theorem charsLtB_trans : ∀ (a b c : List Char),
    charsLtB a b = true → charsLtB b c = true → charsLtB a c = true := by
  intro a
  induction a with
  | nil =>
    intro b c hab hbc
    cases b with
    | nil => exact absurd hab (by simp [charsLtB])
    | cons y bs =>
      cases c with
      | nil => exact absurd hbc (by simp [charsLtB])
      | cons z cs => simp [charsLtB]
  | cons x as ih =>
    intro b c hab hbc
    cases b with
    | nil => exact absurd hab (by simp [charsLtB])
    | cons y bs =>
      cases c with
      | nil => exact absurd hbc (by simp [charsLtB])
      | cons z cs =>
        simp only [charsLtB] at hab hbc ⊢
        split_ifs at hab hbc ⊢ <;>
          first
          | rfl
          | (exact ih bs cs hab hbc)
          | (exact absurd hab (by decide))
          | (exact absurd hbc (by decide))
          | (exfalso; omega)

theorem charsLtB_le_lt_trans : ∀ (x c r : List Char),
    charsLtB x c = false → charsLtB x r = true → charsLtB c r = true := by
  intro x
  induction x with
  | nil =>
    intro c r hxc hxr
    cases c with
    | nil =>
      cases r with
      | nil => exact absurd hxr (by simp [charsLtB])
      | cons z rs => simp [charsLtB]
    | cons y cs => exact absurd hxc (by simp [charsLtB])
  | cons a xs ih =>
    intro c r hxc hxr
    cases c with
    | nil =>
      cases r with
      | nil => exact absurd hxr (by simp [charsLtB])
      | cons z rs => simp [charsLtB]
    | cons y cs =>
      cases r with
      | nil => exact absurd hxr (by simp [charsLtB])
      | cons z rs =>
        simp only [charsLtB] at hxc hxr ⊢
        split_ifs at hxc hxr ⊢ <;>
          first
          | rfl
          | (exact ih cs rs hxc hxr)
          | (exact absurd hxc (by decide))
          | (exact absurd hxr (by decide))
          | (exfalso; omega)

theorem strLtB_irrefl (a : String) : strLtB a a = false := charsLtB_irrefl a.toList

theorem strLtB_le_lt_trans {x c r : String} (h1 : strLtB x c = false)
    (h2 : strLtB x r = true) : strLtB c r = true :=
  charsLtB_le_lt_trans x.toList c.toList r.toList h1 h2

theorem foldlMin_mem : ∀ (cs : List String) (c : String),
    (cs.foldl (fun acc x => if strLtB x acc then x else acc) c = c) ∨
      (cs.foldl (fun acc x => if strLtB x acc then x else acc) c ∈ cs) := by
  intro cs
  induction cs with
  | nil => intro c; left; rfl
  | cons x xs ih =>
    intro c
    simp only [List.foldl_cons]
    by_cases h : strLtB x c
    · rw [if_pos h]
      rcases ih x with h2 | h2
      · right; rw [h2]; exact List.mem_cons_self x xs
      · right; exact List.mem_cons_of_mem x h2
    · rw [if_neg h]
      rcases ih c with h2 | h2
      · left; exact h2
      · right; exact List.mem_cons_of_mem x h2

theorem foldlMin_le : ∀ (cs : List String) (c : String) (w : String),
    (w = c ∨ w ∈ cs) →
    strLtB w (cs.foldl (fun acc x => if strLtB x acc then x else acc) c) = false := by
  intro cs
  induction cs with
  | nil =>
    intro c w hw
    rcases hw with rfl | hw
    · simp only [List.foldl_nil]
      exact strLtB_irrefl w
    · exact absurd hw (List.not_mem_nil w)
  | cons x xs ih =>
    intro c w hw
    simp only [List.foldl_cons]
    by_cases h : strLtB x c
    · rw [if_pos h]
      rcases hw with rfl | hw
      · -- the accumulator moved below w, and the result stays below it
        by_cases hres : strLtB w (xs.foldl (fun acc y => if strLtB y acc then y else acc) x) = true
        · have hxres : strLtB x (xs.foldl (fun acc y => if strLtB y acc then y else acc) x) = false :=
            ih x x (Or.inl rfl)
          have hxlt : strLtB x (xs.foldl (fun acc y => if strLtB y acc then y else acc) x) = true :=
            charsLtB_trans x.toList w.toList _ h hres
          rw [hxlt] at hxres
          exact absurd hxres (by simp)
        · simpa using hres
      · rcases List.mem_cons.mp hw with rfl | hw
        · exact ih w w (Or.inl rfl)
        · exact ih x w (Or.inr hw)
    · rw [if_neg h]
      rcases hw with rfl | hw
      · exact ih w w (Or.inl rfl)
      · rcases List.mem_cons.mp hw with rfl | hw
        · -- w failed to beat the accumulator, and the result stays below it
          by_cases hres : strLtB w (xs.foldl (fun acc y => if strLtB y acc then y else acc) c) = true
          · have hcres := ih c c (Or.inl rfl)
            have hclt : strLtB c (xs.foldl (fun acc y => if strLtB y acc then y else acc) c) = true :=
              strLtB_le_lt_trans (by simpa using h) hres
            rw [hclt] at hcres
            exact absurd hcres (by simp)
          · simpa using hres
        · exact ih c w (Or.inr hw)

theorem exists_count_max {α : Type} (f : α → Nat) :
    ∀ (l : List α), l ≠ [] → ∃ v ∈ l, ∀ w ∈ l, f w ≤ f v := by
  intro l
  induction l with
  | nil => intro h; exact absurd rfl h
  | cons x xs ih =>
    intro _
    cases xs with
    | nil =>
      refine ⟨x, by simp, ?_⟩
      intro w hw
      rw [List.mem_singleton.mp hw]
    | cons y ys =>
      obtain ⟨v, hv, hmax⟩ := ih (by simp)
      by_cases hc : f x ≤ f v
      · refine ⟨v, List.mem_cons_of_mem x hv, ?_⟩
        intro w hw
        rcases List.mem_cons.mp hw with rfl | hw
        · exact hc
        · exact hmax w hw
      · refine ⟨x, List.mem_cons_self x _, ?_⟩
        intro w hw
        rcases List.mem_cons.mp hw with rfl | hw
        · exact le_refl _
        · exact le_trans (hmax w hw) (by omega)

/-- `statusMode` on a non-empty list returns a member of maximal frequency
that is lexicographically smallest among the equally frequent values —
pandas `mode()[0]`. -/
theorem statusMode_spec {vs : List String} (h : vs ≠ []) :
    ∃ v, statusMode vs = some v ∧ v ∈ vs ∧
      (∀ w ∈ vs, vs.count w ≤ vs.count v) ∧
      (∀ w ∈ vs, vs.count w = vs.count v → strLtB w v = false) := by
  have hex := exists_count_max (fun v => vs.count v) vs h
  obtain ⟨v0, hv0, hmax0⟩ := hex
  have hv0f : v0 ∈ vs.filter (fun v => vs.all (fun w => decide (vs.count w ≤ vs.count v))) := by
    rw [List.mem_filter]
    refine ⟨hv0, ?_⟩
    rw [List.all_eq_true]
    intro w hw
    exact decide_eq_true (hmax0 w hw)
  cases hf : vs.filter (fun v => vs.all (fun w => decide (vs.count w ≤ vs.count v))) with
  | nil => rw [hf] at hv0f; exact absurd hv0f (List.not_mem_nil v0)
  | cons c cs =>
    refine ⟨cs.foldl (fun acc x => if strLtB x acc then x else acc) c, ?_, ?_, ?_, ?_⟩
    · simp [statusMode, hf]
    · have hmem := foldlMin_mem cs c
      have hsub : c :: cs ⊆ vs := by
        rw [← hf]
        exact fun a ha => (List.mem_filter.mp ha).1
      rcases hmem with heq | hmem
      · refine hsub ?_
        rw [heq]
        exact List.mem_cons_self c cs
      · exact hsub (List.mem_cons_of_mem c hmem)
    · have hmem := foldlMin_mem cs c
      have : cs.foldl (fun acc x => if strLtB x acc then x else acc) c ∈ c :: cs := by
        rcases hmem with heq | hmem
        · rw [heq]; exact List.mem_cons_self c cs
        · exact List.mem_cons_of_mem c hmem
      rw [← hf] at this
      have hp := (List.mem_filter.mp this).2
      rw [List.all_eq_true] at hp
      intro w hw
      exact of_decide_eq_true (hp w hw)
    · intro w hw hcnt
      have hres := foldlMin_mem cs c
      have hresmem : cs.foldl (fun acc x => if strLtB x acc then x else acc) c ∈ c :: cs := by
        rcases hres with heq | hmem
        · rw [heq]; exact List.mem_cons_self c cs
        · exact List.mem_cons_of_mem c hmem
      rw [← hf] at hresmem
      have hpv := (List.mem_filter.mp hresmem).2
      rw [List.all_eq_true] at hpv
      have hwf : w ∈ vs.filter (fun v => vs.all (fun u => decide (vs.count u ≤ vs.count v))) := by
        rw [List.mem_filter]
        refine ⟨hw, ?_⟩
        rw [List.all_eq_true]
        intro u hu
        have := of_decide_eq_true (hpv u hu)
        exact decide_eq_true (by omega)
      rw [hf] at hwf
      rcases List.mem_cons.mp hwf with rfl | hwf
      · exact foldlMin_le cs w w (Or.inl rfl)
      · exact foldlMin_le cs c w (Or.inr hwf)

theorem emitOrders_getElem? : ∀ (c : Nat) (gs : List ((Nat × String) × List SaleLine)) (i : Nat),
    (emitOrders c gs)[i]? = gs[i]?.map (fun kg => mkOrder (c + i) kg.1 kg.2) := by
  intro c gs
  induction gs generalizing c with
  | nil => intro i; simp [emitOrders]
  | cons kg rest ih =>
    intro i
    obtain ⟨k, g⟩ := kg
    cases i with
    | zero => simp [emitOrders]
    | succ j =>
      simp only [emitOrders, List.getElem?_cons_succ, ih (c + 1) j]
      have harith : c + 1 + j = c + (j + 1) := by omega
      rw [harith]

/-- The tie-break rule as claim C2 words it: among the values of maximal
frequency, the *first-encountered* one in group order. -/
def firstEncounteredMode (vs : List String) : Option String :=
  vs.find? (fun v => vs.all (fun w => decide (vs.count w ≤ vs.count v)))

/-- First line of the C2 tie group (status `Pending`). -/
def c2salePending : Sale :=
  { customer_id := some "C1", product_id := some "P1", quantity := 1, unit_price := 10,
    transaction_date := some "2024-01-15", status := some "Pending" }

/-- Second line of the C2 tie group (status `Completed`). -/
def c2saleCompleted : Sale :=
  { customer_id := some "C1", product_id := some "P2", quantity := 1, unit_price := 10,
    transaction_date := some "2024-01-15", status := some "Completed" }

/-- C2 counterexample: a group whose statuses are, in order, `Pending` then
`Completed` (a frequency tie). The first-encountered rule picks `Pending`,
but the pipeline's `mode()[0]` picks the lexicographically smallest value and
the produced order's status is `Completed`, refuting the claimed tie-break. -/
theorem c2_counterexample :
    (transform_sales_to_orders [c2salePending, c2saleCompleted]
        [("C1", 1)] [("P1", 1), ("P2", 2)]).1.map (fun o => o.status) = ["Completed"] ∧
    (salesGroups (enrichLines [c2salePending, c2saleCompleted]
        [("C1", 1)] [("P1", 1), ("P2", 2)])).map
        (fun kg => kg.2.filterMap (fun l => l.status)) = [["Pending", "Completed"]] ∧
    firstEncounteredMode ["Pending", "Completed"] = some "Pending" ∧
    ("Completed" : String) ≠ "Pending" := by
  exact ⟨by decide, by decide, by decide, by decide⟩

/-- C2 amended: the status of the `i`-th order is a most frequent non-null
status of its group, but ties are broken by the *lexicographically smallest*
(code-point order) such value — pandas `mode()` returns the modes sorted —
not by first encounter; a group with no non-null status gets the default
`Completed`. -/
theorem c2_amended : ∀ (sales : List Sale) (cm pm : List (String × Nat)) (i : Nat) (o : Order),
    (transform_sales_to_orders sales cm pm).1[i]? = some o →
    ∃ g, (salesGroups (enrichLines sales cm pm))[i]? = some g ∧
      ((g.2.filterMap (fun l => l.status) = [] ∧ o.status = "Completed") ∨
       (o.status ∈ g.2.filterMap (fun l => l.status) ∧
        (∀ w ∈ g.2.filterMap (fun l => l.status),
          (g.2.filterMap (fun l => l.status)).count w
            ≤ (g.2.filterMap (fun l => l.status)).count o.status) ∧
        (∀ w ∈ g.2.filterMap (fun l => l.status),
          (g.2.filterMap (fun l => l.status)).count w
            = (g.2.filterMap (fun l => l.status)).count o.status →
          strLtB w o.status = false))) := by
  intro sales cm pm i o h
  simp only [transform_sales_to_orders] at h
  rw [emitOrders_getElem?] at h
  cases hg : (salesGroups (enrichLines sales cm pm))[i]? with
  | none => rw [hg] at h; exact absurd h (by simp)
  | some g =>
    rw [hg] at h
    simp only [Option.map_some', Option.some.injEq] at h
    refine ⟨g, rfl, ?_⟩
    rw [← h]
    by_cases hvs : g.2.filterMap (fun l => l.status) = []
    · left
      refine ⟨hvs, ?_⟩
      show (statusMode (g.2.filterMap (fun l => l.status))).getD "Completed" = "Completed"
      rw [hvs]
      rfl
    · right
      obtain ⟨v, hsm, hmem, hmax, hmin⟩ := statusMode_spec hvs
      have hst : (mkOrder (1 + i) g.1 g.2).status = v := by
        show (statusMode (g.2.filterMap (fun l => l.status))).getD "Completed" = v
        rw [hsm]
        rfl
      rw [hst]
      exact ⟨hmem, hmax, hmin⟩

/-- The single sales line used for the C2 witness. -/
def c2wSale : Sale :=
  { customer_id := some "C1", product_id := some "P1", quantity := 2, unit_price := 5,
    transaction_date := some "2024-02-02", status := some "Shipped" }

/-- The order the pipeline produces for `c2wSale`. -/
def c2wOrder : Order :=
  { order_id := 1, customer_id := 1, order_date := "2024-02-02", total_amount := 10,
    status := "Shipped" }

/-- Witness for the amended C2 at a concrete input: the one-line group's
status is its unique (hence most frequent and lexicographically least)
status. -/
theorem c2_witness :
    ∃ g, (salesGroups (enrichLines [c2wSale] [("C1", 1)] [("P1", 1)]))[0]? = some g ∧
      ((g.2.filterMap (fun l => l.status) = [] ∧ c2wOrder.status = "Completed") ∨
       (c2wOrder.status ∈ g.2.filterMap (fun l => l.status) ∧
        (∀ w ∈ g.2.filterMap (fun l => l.status),
          (g.2.filterMap (fun l => l.status)).count w
            ≤ (g.2.filterMap (fun l => l.status)).count c2wOrder.status) ∧
        (∀ w ∈ g.2.filterMap (fun l => l.status),
          (g.2.filterMap (fun l => l.status)).count w
            = (g.2.filterMap (fun l => l.status)).count c2wOrder.status →
          strLtB w c2wOrder.status = false))) :=
  c2_amended [c2wSale] [("C1", 1)] [("P1", 1)] 0 c2wOrder (by decide)

/-- The relational store's observable state: the committed rows of the four
tables, each row paired with its store-assigned id (the order items' own
auto-ids play no role and are not modelled), plus the auto-increment
counters, which survive `DELETE FROM`. -/
structure Store where
  customers : List (Nat × CustomerOut)
  products : List (Nat × ProductOut)
  orders : List (Nat × Order)
  order_items : List OrderItem
  nextCustomerId : Nat
  nextProductId : Nat
  nextOrderId : Nat
deriving DecidableEq

/-- Pair each inserted row with the consecutive auto-increment ids starting
at `next` (`cursor.lastrowid` after each execute). -/
def assignIds {α : Type} (next : Nat) : List α → List (Nat × α)
  | [] => []
  | r :: rs => (next, r) :: assignIds (next + 1) rs

/-- The committed outcome of a fully successful `load_customers` run
(etl_pipeline.py:510-539): every row inserted under a fresh store id, the
transaction committed, and the natural-id-to-store-id mapping returned. -/
def loadCustomersOk (s : Store) (df : List CustomerOut) : Store × List (String × Nat) :=
  let rows := assignIds s.nextCustomerId df
  ({ s with customers := s.customers ++ rows,
            nextCustomerId := s.nextCustomerId + df.length },
   rows.map (fun p => (p.2.customer_id, p.1)))

/-- `load_customers` (etl_pipeline.py:495-545). `failAt = some k` with `k` in
range means the `k`-th INSERT raises a store error: the `except` block rolls
the transaction back — the committed rows are exactly as before the step —
and `{}` is returned (ids consumed by the executed inserts are not reused).
An empty frame is not loaded ("No customers data to load"). -/
def load_customers (s : Store) (df : List CustomerOut) (failAt : Option Nat) :
    Store × List (String × Nat) :=
  if df.isEmpty then (s, [])
  else
    match failAt with
    | some k =>
      if k < df.length then ({ s with nextCustomerId := s.nextCustomerId + k }, [])
      else loadCustomersOk s df
    | none => loadCustomersOk s df

/-- The committed outcome of a fully successful `load_products` run
(etl_pipeline.py:562-589). -/
def loadProductsOk (s : Store) (df : List ProductOut) : Store × List (String × Nat) :=
  let rows := assignIds s.nextProductId df
  ({ s with products := s.products ++ rows,
            nextProductId := s.nextProductId + df.length },
   rows.map (fun p => (p.2.product_id, p.1)))

/-- `load_products` (etl_pipeline.py:547-595), with the same contract as
`load_customers`. -/
def load_products (s : Store) (df : List ProductOut) (failAt : Option Nat) :
    Store × List (String × Nat) :=
  if df.isEmpty then (s, [])
  else
    match failAt with
    | some k =>
      if k < df.length then ({ s with nextProductId := s.nextProductId + k }, [])
      else loadProductsOk s df
    | none => loadProductsOk s df

/-- The committed outcome of a fully successful `load_orders` run
(etl_pipeline.py:683-711), returning the local-to-store order-id mapping. -/
def loadOrdersOk (s : Store) (df : List Order) : Store × List (Nat × Nat) :=
  let rows := assignIds s.nextOrderId df
  ({ s with orders := s.orders ++ rows,
            nextOrderId := s.nextOrderId + df.length },
   rows.map (fun p => (p.2.order_id, p.1)))

/-- `load_orders` (etl_pipeline.py:671-717): an empty frame returns Python
`None` (a bare `return`), a store error returns `{}` after rollback, and
success returns the mapping. -/
def load_orders (s : Store) (df : List Order) (failAt : Option Nat) :
    Store × Option (List (Nat × Nat)) :=
  if df.isEmpty then (s, none)
  else
    match failAt with
    | some k =>
      if k < df.length then ({ s with nextOrderId := s.nextOrderId + k }, some [])
      else ((loadOrdersOk s df).1, some (loadOrdersOk s df).2)
    | none => ((loadOrdersOk s df).1, some (loadOrdersOk s df).2)

/-- `load_order_items` (etl_pipeline.py:719-770): each row's `order_id` —
already rewritten by the caller — is looked up in `order_id_mapping` *again*;
a missing key is a per-row skip ("Warning: Could not find order_id
mapping"), a found key is inserted under the mapped id; a store error rolls
the step back. -/
def load_order_items (s : Store) (df : List OrderItem) (m : List (Nat × Nat))
    (failAt : Option Nat) : Store :=
  if df.isEmpty then s
  else
    let resolved := df.filterMap (fun it =>
      (lookupNat m it.order_id).map (fun dbid => { it with order_id := dbid }))
    match failAt with
    | some k =>
      if k < resolved.length then s
      else { s with order_items := s.order_items ++ resolved }
    | none => { s with order_items := s.order_items ++ resolved }

/-- Lines 819-824 of `load`: when the items frame is non-empty, rewrite each
item's local order id through the order-id mapping, drop the rows whose id
did not map (`dropna`), and hand the result to `load_order_items` together
with the same mapping. -/
def loadItemsStage (s : Store) (itemsDf : List OrderItem)
    (om : Option (List (Nat × Nat))) (failAt : Option Nat) : Store :=
  if itemsDf.isEmpty then s
  else
    match om with
    | none => s   -- unreachable from `load`: a non-empty items frame forces a non-empty orders frame
    | some m =>
      let items2 := itemsDf.filterMap (fun it =>
        (lookupNat m it.order_id).map (fun dbid => { it with order_id := dbid }))
      load_order_items s items2 m failAt

/-- Which load step's driver raises, and at which insert. -/
structure FailPlan where
  customers : Option Nat
  products : Option Nat
  orders : Option Nat
  items : Option Nat

/-- The `DELETE FROM` block (etl_pipeline.py:791-800): clears the four
tables in child-before-parent order; `DELETE` does not reset the
auto-increment counters. -/
def clearTables (s : Store) : Store :=
  { s with customers := [], products := [], orders := [], order_items := [] }

/-- `load` (etl_pipeline.py:772-832) after a successful connection and table
creation: clear the tables, load customers then products — each step
catching its own store errors — aggregate the sales with the returned
mappings, load orders, then rewrite and load the order items. -/
def etlLoad (s0 : Store) (customersDf : List CustomerOut) (productsDf : List ProductOut)
    (salesDf : List Sale) (fp : FailPlan) : Store :=
  let s1 := clearTables s0
  let r1 := load_customers s1 customersDf fp.customers
  let r2 := load_products r1.1 productsDf fp.products
  let t := transform_sales_to_orders salesDf r1.2 r2.2
  let r3 := load_orders r2.1 t.1 fp.orders
  loadItemsStage r3.1 t.2 r3.2 fp.items

/-- A store as left by a previous run: empty after clearing, but with the
orders auto-increment already at 2 (`DELETE FROM` does not reset it). -/
def exStore : Store :=
  { customers := [], products := [], orders := [], order_items := [],
    nextCustomerId := 1, nextProductId := 1, nextOrderId := 2 }

/-- A cleansed customer to load. -/
def exCust : CustomerOut :=
  { id := 1, customer_id := "C1", first_name := some "Asha", last_name := some "Rao",
    email := some "asha.rao@example.com", phone := some "+91-9876543210",
    city := some "Pune", registration_date := some "2024-01-01" }

/-- A cleansed product to load. -/
def exProd : ProductOut :=
  { id := 1, product_id := "P1", product_name := some "Widget",
    category := some "Electronics", price := some 10, stock_quantity := some 4 }

/-- A cleansed sales line for the C1 run. -/
def c1sale : Sale :=
  { customer_id := some "C1", product_id := some "P1", quantity := 1, unit_price := 10,
    transaction_date := some "2024-01-15", status := some "Completed" }

/-- A second sales line on another date, forming a second order. -/
def c1saleB : Sale :=
  { customer_id := some "C1", product_id := some "P1", quantity := 2, unit_price := 10,
    transaction_date := some "2024-02-20", status := some "Completed" }

/-- C1, evaluated at the failing input: with one order whose store-assigned
id is 2 (mapping `{1 ↦ 2}`), the load phase rewrites the item's local id 1 to
2 and `load_order_items` then looks 2 up in the same mapping, finds nothing,
and skips the item — no order item is persisted although the order was.
With two orders (`{1 ↦ 2, 2 ↦ 3}`), the first order's item survives the
double lookup but is attached to order 3 instead of its own order 2, and the
second order's item is skipped. -/
theorem c1_double_rewrite_bug :
    ((etlLoad exStore [exCust] [exProd] [c1sale] ⟨none, none, none, none⟩).orders.map
        (fun p => p.1) = [2] ∧
      lookupNat [(1, 2)] 1 = some 2 ∧
      (etlLoad exStore [exCust] [exProd] [c1sale] ⟨none, none, none, none⟩).order_items = []) ∧
    ((etlLoad exStore [exCust] [exProd] [c1sale, c1saleB] ⟨none, none, none, none⟩).orders.map
        (fun p => p.1) = [2, 3] ∧
      lookupNat [(1, 2), (2, 3)] 1 = some 2 ∧
      (etlLoad exStore [exCust] [exProd] [c1sale, c1saleB]
          ⟨none, none, none, none⟩).order_items.map (fun it => it.order_id) = [3]) := by
  exact ⟨⟨by decide, by decide, by decide⟩, ⟨by decide, by decide, by decide⟩⟩

theorem assignIds_map_snd {α : Type} : ∀ (n : Nat) (l : List α),
    (assignIds n l).map (fun p => p.2) = l := by
  intro n l
  induction l generalizing n with
  | nil => rfl
  | cons x xs ih => simp [assignIds, ih]

theorem assignIds_zip {α : Type} : ∀ (n : Nat) (l : List α),
    ((assignIds n l).map (fun p => p.1)).zip l = assignIds n l := by
  intro n l
  induction l generalizing n with
  | nil => rfl
  | cons x xs ih => simp [assignIds, ih]

theorem load_customers_fail {s : Store} {df : List CustomerOut} {k : Nat}
    (hk : k < df.length) :
    load_customers s df (some k) = ({ s with nextCustomerId := s.nextCustomerId + k }, []) := by
  have hne : df.isEmpty = false := by
    cases df with
    | nil => simp at hk
    | cons a l => rfl
  simp [load_customers, hne, hk]

theorem load_products_fail {s : Store} {df : List ProductOut} {j : Nat}
    (hj : j < df.length) :
    load_products s df (some j) = ({ s with nextProductId := s.nextProductId + j }, []) := by
  have hne : df.isEmpty = false := by
    cases df with
    | nil => simp at hj
    | cons a l => rfl
  simp [load_products, hne, hj]

theorem load_customers_none_customers (s : Store) (df : List CustomerOut) :
    (load_customers s df none).1.customers = s.customers ++ assignIds s.nextCustomerId df := by
  unfold load_customers loadCustomersOk
  split
  · rename_i hemp
    rw [List.isEmpty_iff.mp hemp]
    simp [assignIds]
  · rfl

theorem load_products_none_products (s : Store) (df : List ProductOut) :
    (load_products s df none).1.products = s.products ++ assignIds s.nextProductId df := by
  unfold load_products loadProductsOk
  split
  · rename_i hemp
    rw [List.isEmpty_iff.mp hemp]
    simp [assignIds]
  · rfl

theorem load_customers_keeps (s : Store) (df : List CustomerOut) (f : Option Nat) :
    (load_customers s df f).1.products = s.products ∧
    (load_customers s df f).1.orders = s.orders ∧
    (load_customers s df f).1.order_items = s.order_items := by
  unfold load_customers loadCustomersOk
  split
  · exact ⟨rfl, rfl, rfl⟩
  · split
    · split
      · exact ⟨rfl, rfl, rfl⟩
      · exact ⟨rfl, rfl, rfl⟩
    · exact ⟨rfl, rfl, rfl⟩

theorem load_products_keeps (s : Store) (df : List ProductOut) (f : Option Nat) :
    (load_products s df f).1.customers = s.customers ∧
    (load_products s df f).1.orders = s.orders ∧
    (load_products s df f).1.order_items = s.order_items := by
  unfold load_products loadProductsOk
  split
  · exact ⟨rfl, rfl, rfl⟩
  · split
    · split
      · exact ⟨rfl, rfl, rfl⟩
      · exact ⟨rfl, rfl, rfl⟩
    · exact ⟨rfl, rfl, rfl⟩

theorem load_orders_keeps (s : Store) (df : List Order) (f : Option Nat) :
    (load_orders s df f).1.customers = s.customers ∧
    (load_orders s df f).1.products = s.products ∧
    (load_orders s df f).1.order_items = s.order_items := by
  unfold load_orders loadOrdersOk
  split
  · exact ⟨rfl, rfl, rfl⟩
  · split
    · split
      · exact ⟨rfl, rfl, rfl⟩
      · exact ⟨rfl, rfl, rfl⟩
    · exact ⟨rfl, rfl, rfl⟩

theorem load_order_items_keeps (s : Store) (df : List OrderItem) (m : List (Nat × Nat))
    (f : Option Nat) :
    (load_order_items s df m f).customers = s.customers ∧
    (load_order_items s df m f).products = s.products ∧
    (load_order_items s df m f).orders = s.orders := by
  unfold load_order_items
  split
  · exact ⟨rfl, rfl, rfl⟩
  · split
    · dsimp only
      split
      · exact ⟨rfl, rfl, rfl⟩
      · exact ⟨rfl, rfl, rfl⟩
    · exact ⟨rfl, rfl, rfl⟩

theorem loadItemsStage_keeps (s : Store) (df : List OrderItem)
    (om : Option (List (Nat × Nat))) (f : Option Nat) :
    (loadItemsStage s df om f).customers = s.customers ∧
    (loadItemsStage s df om f).products = s.products ∧
    (loadItemsStage s df om f).orders = s.orders := by
  unfold loadItemsStage
  split
  · exact ⟨rfl, rfl, rfl⟩
  · split
    · exact ⟨rfl, rfl, rfl⟩
    · exact load_order_items_keeps _ _ _ _

theorem assignIds_map_field {α β : Type} (f : α → β) : ∀ (n : Nat) (l : List α),
    (assignIds n l).map (fun p => f p.2) = l.map f := by
  intro n l
  induction l generalizing n with
  | nil => rfl
  | cons x xs ih => simp [assignIds, ih]

theorem load_customers_none_eq {s : Store} {df : List CustomerOut} (h : df ≠ []) :
    load_customers s df none = loadCustomersOk s df := by
  have hne : df.isEmpty = false := by
    cases df with
    | nil => exact absurd rfl h
    | cons a l => rfl
  simp [load_customers, hne]

theorem load_products_none_eq {s : Store} {df : List ProductOut} (h : df ≠ []) :
    load_products s df none = loadProductsOk s df := by
  have hne : df.isEmpty = false := by
    cases df with
    | nil => exact absurd rfl h
    | cons a l => rfl
  simp [load_products, hne]

/-- C6: `load_customers` and `load_products` are atomic steps: if an insert
raises a store error, the step's partial inserts are rolled back — the
committed table is exactly as before the step — and the empty mapping is
returned; on success the returned mapping pairs each loaded entity's natural
id, in frame order, with the store-assigned id under which exactly that row
was committed. -/
theorem c6_load_steps_atomic : ∀ (s : Store) (cdf : List CustomerOut)
    (pdf : List ProductOut) (k j : Nat),
    (k < cdf.length →
      (load_customers s cdf (some k)).1.customers = s.customers ∧
      (load_customers s cdf (some k)).2 = []) ∧
    ((load_customers s cdf none).1.customers
        = s.customers ++ ((load_customers s cdf none).2.map (fun p => p.2)).zip cdf ∧
      (load_customers s cdf none).2.map (fun p => p.1) = cdf.map (fun c => c.customer_id)) ∧
    (j < pdf.length →
      (load_products s pdf (some j)).1.products = s.products ∧
      (load_products s pdf (some j)).2 = []) ∧
    ((load_products s pdf none).1.products
        = s.products ++ ((load_products s pdf none).2.map (fun p => p.2)).zip pdf ∧
      (load_products s pdf none).2.map (fun p => p.1) = pdf.map (fun c => c.product_id)) := by
  intro s cdf pdf k j
  refine ⟨?_, ?_, ?_, ?_⟩
  · intro hk
    rw [load_customers_fail hk]
    exact ⟨rfl, rfl⟩
  · cases cdf with
    | nil => simp [load_customers]
    | cons a l =>
      rw [load_customers_none_eq (by simp)]
      constructor
      · simp only [loadCustomersOk, List.map_map]
        show s.customers ++ assignIds s.nextCustomerId (a :: l)
            = s.customers
              ++ (((assignIds s.nextCustomerId (a :: l)).map (fun p => p.1)).zip (a :: l))
        rw [assignIds_zip]
      · simp only [loadCustomersOk, List.map_map]
        exact assignIds_map_field (fun c => c.customer_id) s.nextCustomerId (a :: l)
  · intro hj
    rw [load_products_fail hj]
    exact ⟨rfl, rfl⟩
  · cases pdf with
    | nil => simp [load_products]
    | cons a l =>
      rw [load_products_none_eq (by simp)]
      constructor
      · simp only [loadProductsOk, List.map_map]
        show s.products ++ assignIds s.nextProductId (a :: l)
            = s.products
              ++ (((assignIds s.nextProductId (a :: l)).map (fun p => p.1)).zip (a :: l))
        rw [assignIds_zip]
      · simp only [loadProductsOk, List.map_map]
        exact assignIds_map_field (fun c => c.product_id) s.nextProductId (a :: l)

/-- Witness for C6 at a concrete input: a one-customer and one-product load,
failing at the first insert and succeeding. -/
theorem c6_witness :
    ((load_customers exStore [exCust] (some 0)).1.customers = exStore.customers ∧
      (load_customers exStore [exCust] (some 0)).2 = []) ∧
    ((load_customers exStore [exCust] none).1.customers
        = exStore.customers
          ++ ((load_customers exStore [exCust] none).2.map (fun p => p.2)).zip [exCust] ∧
      (load_customers exStore [exCust] none).2.map (fun p => p.1)
        = [exCust].map (fun c => c.customer_id)) ∧
    ((load_products exStore [exProd] (some 0)).1.products = exStore.products ∧
      (load_products exStore [exProd] (some 0)).2 = []) ∧
    ((load_products exStore [exProd] none).1.products
        = exStore.products
          ++ ((load_products exStore [exProd] none).2.map (fun p => p.2)).zip [exProd] ∧
      (load_products exStore [exProd] none).2.map (fun p => p.1)
        = [exProd].map (fun c => c.product_id)) := by
  have h := c6_load_steps_atomic exStore [exCust] [exProd] 0 0
  exact ⟨h.1 (by decide), h.2.1, h.2.2.1 (by decide), h.2.2.2⟩

/-- C5 counterexample: run the load phase on one customer and one product
with the customers step failing at its first insert. The claim says every
later step is skipped, yet the products step still executes and persists its
row — the load phase does not halt. -/
theorem c5_counterexample :
    (etlLoad exStore [exCust] [exProd] [] ⟨some 0, none, none, none⟩).customers = [] ∧
    (etlLoad exStore [exCust] [exProd] [] ⟨some 0, none, none, none⟩).products
      = [(1, exProd)] ∧
    (etlLoad exStore [exCust] [exProd] [] ⟨some 0, none, none, none⟩).products ≠ [] := by
  exact ⟨by decide, by decide, by decide⟩

/-- C5 amended: a failing load step is rolled back step-locally and data
persisted by earlier successful steps is left in place, but the load phase
does not halt: when the customers step fails, the products step still runs
and persists every product (later steps merely process no data, because the
failed step returned an empty mapping); when the products step fails, the
customers persisted before it remain and only the products table stays
empty. -/
theorem c5_amended : ∀ (s0 : Store) (cdf : List CustomerOut) (pdf : List ProductOut)
    (sdf : List Sale) (k j : Nat),
    (k < cdf.length →
      (etlLoad s0 cdf pdf sdf ⟨some k, none, none, none⟩).customers = [] ∧
      (etlLoad s0 cdf pdf sdf ⟨some k, none, none, none⟩).products.map (fun p => p.2) = pdf) ∧
    (j < pdf.length →
      (etlLoad s0 cdf pdf sdf ⟨none, some j, none, none⟩).customers.map (fun p => p.2) = cdf ∧
      (etlLoad s0 cdf pdf sdf ⟨none, some j, none, none⟩).products = []) := by
  intro s0 cdf pdf sdf k j
  constructor
  · intro hk
    constructor
    · simp only [etlLoad]
      rw [(loadItemsStage_keeps _ _ _ _).1, (load_orders_keeps _ _ _).1,
        (load_products_keeps _ _ _).1, load_customers_fail hk]
      rfl
    · simp only [etlLoad]
      rw [(loadItemsStage_keeps _ _ _ _).2.1, (load_orders_keeps _ _ _).2.1,
        load_products_none_products, load_customers_fail hk]
      simp [clearTables, assignIds_map_snd]
  · intro hj
    constructor
    · simp only [etlLoad]
      rw [(loadItemsStage_keeps _ _ _ _).1, (load_orders_keeps _ _ _).1,
        (load_products_keeps _ _ _).1, load_customers_none_customers]
      simp [clearTables, assignIds_map_snd]
    · simp only [etlLoad]
      rw [(loadItemsStage_keeps _ _ _ _).2.1, (load_orders_keeps _ _ _).2.1,
        load_products_fail hj]
      dsimp only
      rw [(load_customers_keeps _ _ _).1]
      rfl

/-- Witness for the amended C5 at a concrete input: one customer, one
product, failing each of the two steps in turn. -/
theorem c5_witness :
    ((etlLoad exStore [exCust] [exProd] [] ⟨some 0, none, none, none⟩).customers = [] ∧
      (etlLoad exStore [exCust] [exProd] [] ⟨some 0, none, none, none⟩).products.map
        (fun p => p.2) = [exProd]) ∧
    ((etlLoad exStore [exCust] [exProd] [] ⟨none, some 0, none, none⟩).customers.map
        (fun p => p.2) = [exCust] ∧
      (etlLoad exStore [exCust] [exProd] [] ⟨none, some 0, none, none⟩).products = []) := by
  have h := c5_amended exStore [exCust] [exProd] [] 0 0
  exact ⟨h.1 (by decide), h.2 (by decide)⟩
